import Mathlib

/- Verification of the hex core of bohelper (src/hex.rs): a byte-order-tagged
list of two-character hexadecimal units, with construction from hex text or
arbitrary text, endianness conversion, rendering to hex text or a bounded
integer, and sliding-window substring search.  Rust strings are modelled as
lists of characters; Rust byte lengths and byte-position slicing are modelled
through the UTF-8 size of each character. -/

/-- Byte order tag (src/hex.rs, `enum Endianness`). -/
inductive Endianness where
  | Big
  | Little
deriving DecidableEq, Repr

/-- One byte as hexadecimal text (src/hex.rs, `struct HexByte`).  The Rust
struct stores a `String`; the string is modelled as its list of characters. -/
structure HexByte where
  contents : List Char
deriving DecidableEq, Repr

/-- The two error cases of `HexByte::from_hex_str` (src/hex.rs).  The Rust
code formats them into `String` messages; the model keeps the payload the
message interpolates: the invalid byte length, or the first offending
character. -/
inductive HexError where
  | tooLong (len : Nat)
  | invalidChar (c : Char)
deriving DecidableEq, Repr

/-- Outcome of a Rust function returning `Result` that can also panic
(indexing a string outside a character boundary panics). -/
inductive RustOutcome (α : Type) where
  | ok (a : α)
  | err (e : HexError)
  | panicked
deriving DecidableEq, Repr

/-- Number of bytes in the UTF-8 encoding of a character; Rust `str::len`
and string slice positions count these bytes. -/
def charUtf8Size (c : Char) : Nat :=
  if c.toNat < 128 then 1
  else if c.toNat < 2048 then 2
  else if c.toNat < 65536 then 3
  else 4

/-- Byte length of a string (Rust `str::len`). -/
def utf8Len (s : List Char) : Nat :=
  (s.map charUtf8Size).sum

/-- The validation test of `HexByte::from_hex_str` (src/hex.rs lines
186-196): the Rust code compares `c as u8` — the code point truncated to a
byte — against the ranges 48-57 (`0`-`9`), 65-70 (`A`-`F`) and 97-102
(`a`-`f`). -/
def isHexCharU8 (c : Char) : Bool :=
  (48 ≤ c.toNat % 256 && c.toNat % 256 ≤ 57) ||
    (65 ≤ c.toNat % 256 && c.toNat % 256 ≤ 70) ||
    (97 ≤ c.toNat % 256 && c.toNat % 256 ≤ 102)

/-- Per-character model of Rust `str::to_lowercase`.  Rust applies full
Unicode lowercasing; this model applies the ASCII mapping and leaves every
other character unchanged.  It agrees with Rust on every ASCII character and
on every character that is already lowercase — the only characters the
theorems below evaluate it on. -/
def rustToLower (c : Char) : Char :=
  if 65 ≤ c.toNat && c.toNat ≤ 90 then Char.ofNat (c.toNat + 32) else c

/-- `HexByte::from_hex_str` (src/hex.rs lines 175-201): reject inputs whose
byte length exceeds 2; left-pad with `'0'` to two characters (the width of
Rust `format!` counts characters); reject the first character that fails the
truncated-code-point range test; store the lowercased text. -/
def HexByte.from_hex_str (s : List Char) : Except HexError HexByte :=
  if 2 < utf8Len s then
    Except.error (HexError.tooLong (utf8Len s))
  else
    let padded := List.replicate (2 - s.length) '0' ++ s
    match padded.find? (fun c => !isHexCharU8 c) with
    | some c => Except.error (HexError.invalidChar c)
    | none => Except.ok ⟨padded.map rustToLower⟩

/-- Lowercase hexadecimal digit of a value below 16 (the digits Rust `{:x}`
formatting emits). -/
def hexDigit (n : Nat) : Char :=
  if n < 10 then Char.ofNat (48 + n) else Char.ofNat (87 + n)

/-- Rust `format!` of a `u8` in lowercase hex (`{:x}`): minimal number of
digits, no padding. -/
def u8HexChars (n : Nat) : List Char :=
  if n < 16 then [hexDigit n] else [hexDigit (n / 16), hexDigit (n % 16)]

/-- `impl From<char> for HexByte` (src/hex.rs lines 210-215): format the
code point truncated to a byte (`c as u8`) in hex and feed it to the
fragment validator.  The Rust code unwraps the `Result`; `fromCharChecked`
exposes the `Result` the unwrap inspects. -/
def HexByte.fromCharChecked (c : Char) : Except HexError HexByte :=
  HexByte.from_hex_str (u8HexChars (c.toNat % 256))

/-- The unwrapped value.  The error branch is dead code: the validation
never fails on the hex rendering of a byte (theorem hex_c9_from_str_total). -/
def HexByte.fromChar (c : Char) : HexByte :=
  match HexByte.fromCharChecked c with
  | Except.ok hb => hb
  | Except.error _ => ⟨[]⟩

/-- `struct HexString` (src/hex.rs): an ordered list of hex units plus an
endianness tag. -/
structure HexString where
  hex_bytes : List HexByte
  endianness : Endianness
deriving DecidableEq, Repr

/-- `HexString::from_hex_bytes` (src/hex.rs lines 18-31): reverse the unit
order when the source and target endianness differ, tag with the target. -/
def HexString.from_hex_bytes (hex_bytes : List HexByte)
    (source_endianness target_endianness : Endianness) : HexString :=
  if source_endianness ≠ target_endianness then
    ⟨hex_bytes.reverse, target_endianness⟩
  else
    ⟨hex_bytes, target_endianness⟩

/-- The fragment loop of `HexString::from_hex_str` (src/hex.rs lines 47-55):
the Rust code slices the padded byte string at byte positions `2*i` and
`2*i + 2` and validates each two-byte slice in order, aborting at the first
invalid fragment.  Slicing at a byte position that is not a character
boundary, or past the end, panics.  A two-byte fragment is therefore either
two one-byte characters or one two-byte character; a slice boundary that
falls inside a character of three or more bytes (or inside the second
character of a fragment), and a lone trailing one-byte character, panic. -/
def parseHexBytes : List Char → RustOutcome (List HexByte)
  | [] => RustOutcome.ok []
  | c :: rest =>
    if charUtf8Size c = 1 then
      match rest with
      | [] => RustOutcome.panicked
      | d :: rest2 =>
        if charUtf8Size d = 1 then
          match HexByte.from_hex_str [c, d] with
          | Except.error e => RustOutcome.err e
          | Except.ok hb =>
            match parseHexBytes rest2 with
            | RustOutcome.ok hbs => RustOutcome.ok (hb :: hbs)
            | r => r
        else RustOutcome.panicked
    else if charUtf8Size c = 2 then
      match HexByte.from_hex_str [c] with
      | Except.error e => RustOutcome.err e
      | Except.ok hb =>
        match parseHexBytes rest with
        | RustOutcome.ok hbs => RustOutcome.ok (hb :: hbs)
        | r => r
    else RustOutcome.panicked

/-- `HexString::from_hex_str` (src/hex.rs lines 33-62): prefix a `'0'` when
the byte length is odd, cut the text into two-byte fragments, validate each
fragment in order (the first failure aborts the whole construction), and
hand the unit list to `from_hex_bytes` with the same endianness pair. -/
def HexString.from_hex_str (s : List Char)
    (source_endianness target_endianness : Endianness) :
    RustOutcome HexString :=
  let padded := if utf8Len s % 2 ≠ 0 then '0' :: s else s
  match parseHexBytes padded with
  | RustOutcome.ok hbs =>
    RustOutcome.ok (HexString.from_hex_bytes hbs source_endianness target_endianness)
  | RustOutcome.err e => RustOutcome.err e
  | RustOutcome.panicked => RustOutcome.panicked

/-- `HexString::from_str` (src/hex.rs lines 65-73): one unit per character
of the input, in order, then `from_hex_bytes`. -/
def HexString.from_str (s : List Char)
    (source_endianness target_endianness : Endianness) : HexString :=
  HexString.from_hex_bytes (s.map HexByte.fromChar) source_endianness target_endianness

/-- `HexString::as_endianness` (src/hex.rs lines 76-87): reverse the unit
order when the requested tag differs from the current one. -/
def HexString.as_endianness (h : HexString) (endianness : Endianness) : HexString :=
  if h.endianness ≠ endianness then
    ⟨h.hex_bytes.reverse, endianness⟩
  else
    ⟨h.hex_bytes, endianness⟩

/-- The window of `n` units starting at unit offset `i`. -/
def windowAt (l : List HexByte) (i n : Nat) : List HexByte :=
  (l.drop i).take n

/-- `HexString::get_offsets` (src/hex.rs lines 90-141): return `[]` at once
for an empty needle or a needle longer than the haystack; re-tag the needle
to the haystack's endianness when they differ; slide a window of the
needle's length across the haystack and record every matching offset.  The
Rust loop keeps the current window in a FIFO deque that at iteration `i`
holds exactly the units `i` to `i + len(needle) - 1`, compares it to the
needle position by position, and breaks at the first `i` with
`i + len(needle)` past the end — for a non-empty needle that makes `i` run
over `0` to `len(haystack) - len(needle)` inclusive, in increasing order. -/
def HexString.get_offsets (h : HexString) (needle : HexString) : List Nat :=
  if needle.hex_bytes.length = 0 ∨ h.hex_bytes.length < needle.hex_bytes.length then
    []
  else
    let n := if needle.endianness ≠ h.endianness
      then needle.as_endianness h.endianness else needle
    (List.range (h.hex_bytes.length - n.hex_bytes.length + 1)).filter
      (fun i => windowAt h.hex_bytes i n.hex_bytes.length == n.hex_bytes)

/-- `HexString::as_hex_string` (src/hex.rs lines 143-157): re-tag when the
requested endianness differs from the current tag, then concatenate the
units' two-character texts in order. -/
def HexString.as_hex_string (h : HexString) (endianness : Endianness) : List Char :=
  let h' := if endianness = h.endianness then h else h.as_endianness endianness
  (h'.hex_bytes.map HexByte.contents).flatten

/-- Rust `char::to_digit(16)`: digits `0`-`9` and letters `a`-`f`, `A`-`F`. -/
def charToDigit16 (c : Char) : Option Nat :=
  if 48 ≤ c.toNat && c.toNat ≤ 57 then some (c.toNat - 48)
  else if 97 ≤ c.toNat && c.toNat ≤ 102 then some (c.toNat - 87)
  else if 65 ≤ c.toNat && c.toNat ≤ 70 then some (c.toNat - 55)
  else none

/-- Range of the bounded integer: `usize` on the 64-bit platforms the test
suite assumes (17 hex digits are expected to overflow, 16 to fit). -/
def usizeBound : Nat := 2 ^ 64

/-- Rust `usize::from_str_radix(s, 16)`: an optional `+` or `-` sign
followed by at least one base-16 digit; each step multiplies the
accumulator by 16 and adds (for `-`, subtracts) the digit with an overflow
check — for the unsigned type a `-` sign therefore admits only the value
zero.  The empty string, a sign alone, a non-digit character, and overflow
all yield an error (`none`). -/
def fromStrRadix16 (s : List Char) : Option Nat :=
  match s with
  | [] => none
  | c :: rest =>
    let digits := if c = '-' ∨ c = '+' then rest else s
    if digits.isEmpty then none
    else if c = '-' then
      digits.foldl
        (fun acc? d => acc?.bind fun _ =>
          (charToDigit16 d).bind fun v => if v = 0 then some 0 else none)
        (some 0)
    else
      digits.foldl
        (fun acc? d => acc?.bind fun acc =>
          (charToDigit16 d).bind fun v =>
            if acc * 16 + v < usizeBound then some (acc * 16 + v) else none)
        (some 0)

/-- `HexString::as_usize` (src/hex.rs lines 159-164): parse the big-endian
rendering in base 16; `None` on any parse failure. -/
def HexString.as_usize (h : HexString) : Option Nat :=
  fromStrRadix16 (h.as_hex_string Endianness.Big)

/-- A character of the canonical stored alphabet: lowercase hex. -/
def isLowerHexDigit (c : Char) : Bool :=
  (48 ≤ c.toNat && c.toNat ≤ 57) || (97 ≤ c.toNat && c.toNat ≤ 102)

/-- An ASCII hexadecimal digit — the alphabet the fragment validation is
meant to accept. -/
def isHexDigitChar (c : Char) : Bool :=
  (48 ≤ c.toNat && c.toNat ≤ 57) || (65 ≤ c.toNat && c.toNat ≤ 70) ||
    (97 ≤ c.toNat && c.toNat ≤ 102)

/-- The invariant of a stored unit: exactly two characters, both lowercase
hex. -/
def HexByte.WF (b : HexByte) : Prop :=
  b.contents.length = 2 ∧ ∀ c ∈ b.contents, isLowerHexDigit c = true

/-- Every unit of the sequence is well-formed. -/
def HexString.WF (h : HexString) : Prop :=
  ∀ b ∈ h.hex_bytes, b.WF

instance (b : HexByte) : Decidable b.WF := by
  unfold HexByte.WF
  infer_instance

instance (h : HexString) : Decidable h.WF := by
  unfold HexString.WF
  infer_instance

/-- Base-16 value of a digit string, most significant digit first. -/
def hexVal (s : List Char) : Nat :=
  s.foldl (fun acc c => acc * 16 + (charToDigit16 c).getD 0) 0

/-- Construction from hex text followed by rendering, with the same
endianness used as source, target and output (the composition claim C4 is
about); `none` when construction does not return a sequence. -/
def renderRoundTrip (s : List Char) (e : Endianness) : Option (List Char) :=
  match HexString.from_hex_str s e e with
  | RustOutcome.ok h => some (h.as_hex_string e)
  | _ => none

/-- Little-endian construction of haystack and needle from hex text followed
by the substring search (the concrete search example of claim C1); `none`
when either construction fails. -/
def offsetsOfHexTexts (hay nee : List Char) : Option (List Nat) :=
  match HexString.from_hex_str hay Endianness.Little Endianness.Little,
      HexString.from_hex_str nee Endianness.Little Endianness.Little with
  | RustOutcome.ok h, RustOutcome.ok n => some (h.get_offsets n)
  | _, _ => none

/-- Big-endian construction from hex text followed by integer rendering
(the concrete examples of claim C3); `none` when construction fails. -/
def asUsizeOfHexText (s : List Char) : Option (Option Nat) :=
  match HexString.from_hex_str s Endianness.Big Endianness.Big with
  | RustOutcome.ok h => some h.as_usize
  | _ => none

/-- The character text of the repository's `from_str` tests. -/
def exFromStrText : List Char := ['A', 'a', '0', 'A', 'a', '1', 'A', 'a', '2']

/-- Whether a fragment validation succeeded. -/
def exceptIsOk : Except HexError HexByte → Bool
  | Except.ok _ => true
  | Except.error _ => false

/-- The hex text of the repository's overlapping-match search test. -/
def exHayText : List Char :=
  ['0', '0', '1', '1', '2', '2', '3', '3', '4', '4',
    '0', '0', '1', '1', '2', '2', '3', '3', '4', '4']

/-- The needle hex text of that test. -/
def exNeedleText : List Char := ['2', '2', '3', '3']

/-- A three-unit little-endian haystack used as a witness input. -/
def exHay : HexString :=
  ⟨[⟨['2', '2']⟩, ⟨['3', '3']⟩, ⟨['2', '2']⟩], Endianness.Little⟩

/-- A one-unit big-endian needle used as a witness input. -/
def exNeedle : HexString := ⟨[⟨['2', '2']⟩], Endianness.Big⟩

/-- One digit step of the checked base-16 accumulation of
`usize::from_str_radix` (the fold body of `fromStrRadix16`). -/
def checkedStep (acc? : Option Nat) (d : Char) : Option Nat :=
  acc?.bind fun acc =>
    (charToDigit16 d).bind fun v =>
      if acc * 16 + v < usizeBound then some (acc * 16 + v) else none

/-- One digit step of the unbounded base-16 value. -/
def valStep (a : Nat) (c : Char) : Nat := a * 16 + (charToDigit16 c).getD 0

/-- A concrete well-formed two-unit big-endian sequence. -/
def exUsize : HexString := ⟨[⟨['0', 'f']⟩, ⟨['f', 'f']⟩], Endianness.Big⟩

/-! ## Helper lemmas -/

lemma HexString.as_endianness_self (h : HexString) : h.as_endianness h.endianness = h := by
  cases h with
  | mk bytes e => simp [HexString.as_endianness]

lemma HexString.as_endianness_length (h : HexString) (e : Endianness) :
    (h.as_endianness e).hex_bytes.length = h.hex_bytes.length := by
  unfold HexString.as_endianness
  split <;> simp

/-! ## Claim C5 -/

/-- Claim C5 counterexample: the claim quantifies over every sequence `h`
and every pair `E1 ≠ E2` without tying `E1` to `h`'s own tag.  For the
two-unit little-endian sequence `[00, 11]`, `E2 = Little` and `E1 = Big`,
re-tagging to `E2` and then to `E1` reverses the unit order and changes the
tag, so the original sequence is not reproduced. -/
theorem hex_c5_counterexample :
    Endianness.Big ≠ Endianness.Little ∧
      ((⟨[⟨['0', '0']⟩, ⟨['1', '1']⟩], Endianness.Little⟩ : HexString).as_endianness
            Endianness.Little).as_endianness Endianness.Big ≠
        (⟨[⟨['0', '0']⟩, ⟨['1', '1']⟩], Endianness.Little⟩ : HexString) := by
  decide

/-- Claim C5 (amended): for every sequence `h` and every endianness `E2`,
re-tagging `h` to `E2` and then back to `h`'s own tag reproduces the
original unit order and tag exactly (so for `E2` different from `h`'s tag,
re-tagging is its own inverse), and re-tagging twice with the same target
equals re-tagging once. -/
theorem hex_c5_retag (h : HexString) (e : Endianness) :
    (h.as_endianness e).as_endianness h.endianness = h ∧
      (h.as_endianness e).as_endianness e = h.as_endianness e := by
  cases h with
  | mk bytes he => cases he <;> cases e <;> simp [HexString.as_endianness]

/-! ## Claim C7 -/

/-- Claim C7: the substring search returns the empty offset list — not an
error — whenever the needle is empty or longer than the haystack. -/
theorem hex_c7_degenerate_needle (h n : HexString)
    (hcond : n.hex_bytes.length = 0 ∨ h.hex_bytes.length < n.hex_bytes.length) :
    h.get_offsets n = [] := by
  unfold HexString.get_offsets
  rw [if_pos hcond]

/-- Claim C7 witness: an empty needle against a one-unit haystack. -/
theorem hex_c7_degenerate_needle_witness :
    ((⟨[], Endianness.Little⟩ : HexString).hex_bytes.length = 0 ∨
        (⟨[⟨['0', '0']⟩], Endianness.Little⟩ : HexString).hex_bytes.length <
          (⟨[], Endianness.Little⟩ : HexString).hex_bytes.length) ∧
      (⟨[⟨['0', '0']⟩], Endianness.Little⟩ : HexString).get_offsets
          ⟨[], Endianness.Little⟩ = [] :=
  ⟨by decide,
    hex_c7_degenerate_needle ⟨[⟨['0', '0']⟩], Endianness.Little⟩
      ⟨[], Endianness.Little⟩ (by decide)⟩

/-! ## Claim C10 -/

/-- Claim C10: the empty sequence renders to `None` as a bounded integer,
because its big-endian hex rendering is the empty string, which the integer
parse rejects — even though the value zero would fit. -/
theorem hex_c10_empty_as_usize (e : Endianness) :
    HexString.as_usize ⟨[], e⟩ = none ∧
      HexString.as_hex_string ⟨[], e⟩ Endianness.Big = [] := by
  cases e <;> exact ⟨rfl, rfl⟩

/-! ## Claim C2 -/

/-- Claim C2 failing input: the validation compares the code point truncated
to a byte (`c as u8`), so the non-hex character U+0131 (code point 305,
truncating to 49, the code point of `'1'`) is accepted, and the stored
contents `['0', U+0131]` contain a character outside `0-9a-f` — contradicting
the code's own documentation of `HexByte` ("Two lower case hexadecimal
characters") and the validation comment ("Validate is 0-9, a-f, or A-F"). -/
theorem hex_c2_truncated_validation :
    HexByte.from_hex_str [Char.ofNat 305] = Except.ok ⟨['0', Char.ofNat 305]⟩ ∧
      isLowerHexDigit (Char.ofNat 305) = false ∧
      isHexDigitChar (Char.ofNat 305) = false :=
  ⟨rfl, rfl, rfl⟩

/-! ## Claim C6 -/

/-- Claim C6 failing input: on the one-character input `'€'` (U+20AC, three
UTF-8 bytes), `from_hex_str` pads to the four-byte text `"0€"` and slices it
at byte position 2, which is inside the character — a panic, not the
`Result` return the claim (and the function's own signature) promises. -/
theorem hex_c6_slice_panic :
    HexString.from_hex_str [Char.ofNat 8364] Endianness.Little Endianness.Little =
      RustOutcome.panicked := by
  decide

/-! ## Claim C8 -/

/-- Claim C8: construction from units always succeeds (it is a total
function), reverses the physical unit order exactly when the declared source
endianness differs from the target (preserving it otherwise) and tags the
result with the target; consequently encoding the text `"Aa0Aa1Aa2"` with
big-to-little conversion yields the unit-reversed sequence relative to
encoding it with no conversion. -/
theorem hex_c8_from_hex_bytes :
    (∀ (bs : List HexByte) (se te : Endianness),
        HexString.from_hex_bytes bs se te =
          ⟨if se = te then bs else bs.reverse, te⟩) ∧
      (HexString.from_str exFromStrText Endianness.Big Endianness.Little).hex_bytes =
        (HexString.from_str exFromStrText Endianness.Little Endianness.Little).hex_bytes.reverse := by
  constructor
  · intro bs se te
    by_cases hset : se = te <;> simp [HexString.from_hex_bytes, hset]
  · decide

/-! ## Claim C9 -/

/-- Claim C9: construction from arbitrary text never fails — for every
character the internal fragment validation of the hex-formatted, truncated
code point returns `Ok` (never its error branch), and for every input string
and endianness pair `from_str` produces a sequence with exactly one unit per
character. -/
theorem hex_c9_from_str_total :
    (∀ c : Char, ∃ hb, HexByte.fromCharChecked c = Except.ok hb) ∧
      (∀ (s : List Char) (e1 e2 : Endianness),
        (HexString.from_str s e1 e2).hex_bytes.length = s.length) := by
  constructor
  · intro c
    have key : ∀ n < 256, exceptIsOk (HexByte.from_hex_str (u8HexChars n)) = true := by
      set_option maxRecDepth 8192 in decide
    have hlt : c.toNat % 256 < 256 := Nat.mod_lt _ (by norm_num)
    have hok := key (c.toNat % 256) hlt
    unfold HexByte.fromCharChecked
    cases hres : HexByte.from_hex_str (u8HexChars (c.toNat % 256)) with
    | ok hb => exact ⟨hb, rfl⟩
    | error e => rw [hres] at hok; simp [exceptIsOk] at hok
  · intro s e1 e2
    unfold HexString.from_str HexString.from_hex_bytes
    split <;> simp

/-! ## Claim C4 -/

lemma hexDigitChar_facts (c : Char) (hc : isHexDigitChar c = true) :
    charUtf8Size c = 1 ∧ isHexCharU8 c = true := by
  simp only [isHexDigitChar, Bool.or_eq_true, Bool.and_eq_true,
    decide_eq_true_eq] at hc
  constructor
  · unfold charUtf8Size
    rw [if_pos (by omega)]
  · have hlt : c.toNat < 256 := by omega
    simp only [isHexCharU8, Nat.mod_eq_of_lt hlt, Bool.or_eq_true,
      Bool.and_eq_true, decide_eq_true_eq]
    omega

lemma utf8Len_ascii (s : List Char) (h : ∀ c ∈ s, isHexDigitChar c = true) :
    utf8Len s = s.length := by
  induction s with
  | nil => rfl
  | cons c rest ih =>
    have hc := (hexDigitChar_facts c (h c (by simp))).1
    have hr := ih (fun x hx => h x (by simp [hx]))
    simp only [utf8Len, List.map_cons, List.sum_cons, List.length_cons] at hr ⊢
    omega

lemma from_hex_str_pair (c d : Char) (hc : isHexDigitChar c = true)
    (hd : isHexDigitChar d = true) :
    HexByte.from_hex_str [c, d] = Except.ok ⟨[rustToLower c, rustToLower d]⟩ := by
  obtain ⟨hc1, hc2⟩ := hexDigitChar_facts c hc
  obtain ⟨hd1, hd2⟩ := hexDigitChar_facts d hd
  have hlen : utf8Len [c, d] = 2 := by simp [utf8Len, hc1, hd1]
  simp [HexByte.from_hex_str, hlen, List.find?, hc2, hd2]

lemma parseHexBytes_ascii : ∀ (k : Nat) (s : List Char), s.length ≤ k →
    (∀ c ∈ s, isHexDigitChar c = true) → s.length % 2 = 0 →
    ∃ hbs, parseHexBytes s = RustOutcome.ok hbs ∧
      (hbs.map HexByte.contents).flatten = s.map rustToLower := by
  intro k
  induction k with
  | zero =>
    intro s hs _ _
    have hnil : s = [] := List.length_eq_zero.mp (by omega)
    subst hnil
    exact ⟨[], rfl, rfl⟩
  | succ k ih =>
    intro s hs hall heven
    match s with
    | [] => exact ⟨[], rfl, rfl⟩
    | [c] => simp at heven
    | c :: d :: rest =>
      have hc := hall c (by simp)
      have hd := hall d (by simp)
      have hrest : ∀ x ∈ rest, isHexDigitChar x = true := fun x hx => hall x (by simp [hx])
      have hlenr : rest.length ≤ k := by simp at hs; omega
      have hevenr : rest.length % 2 = 0 := by simp at heven; omega
      obtain ⟨hbs, hps, hj⟩ := ih rest hlenr hrest hevenr
      refine ⟨⟨[rustToLower c, rustToLower d]⟩ :: hbs, ?_, ?_⟩
      · simp [parseHexBytes, (hexDigitChar_facts c hc).1, (hexDigitChar_facts d hd).1,
          from_hex_str_pair c d hc hd, hps]
      · simp [hj]

/-- Zeta-reduced form of `HexString.from_hex_str`. -/
lemma from_hex_str_def (s : List Char) (e1 e2 : Endianness) :
    HexString.from_hex_str s e1 e2 =
      match parseHexBytes (if utf8Len s % 2 ≠ 0 then '0' :: s else s) with
      | RustOutcome.ok hbs => RustOutcome.ok (HexString.from_hex_bytes hbs e1 e2)
      | RustOutcome.err e => RustOutcome.err e
      | RustOutcome.panicked => RustOutcome.panicked := rfl

lemma as_hex_string_same (hbs : List HexByte) (e : Endianness) :
    HexString.as_hex_string ⟨hbs, e⟩ e = (hbs.map HexByte.contents).flatten := by
  simp [HexString.as_hex_string]

/-- Claim C4 counterexample: the even-length hex text `"AB"` constructs
successfully with matching endianness but renders back as `"ab"` — the
stored units are lowercased, so the round trip is not exact for uppercase
input as the claim states. -/
theorem hex_c4_counterexample :
    renderRoundTrip ['A', 'B'] Endianness.Big = some ['a', 'b'] ∧
      (['a', 'b'] : List Char) ≠ ['A', 'B'] :=
  ⟨rfl, by decide⟩

/-- Claim C4 (amended): for every string of ASCII hex digits `s` and any
endianness `E`, constructing with `from_hex_str(s, E, E)` and rendering as
hex text in endianness `E` reproduces the even-length, zero-left-padded,
lowercased version of `s` (an exact round trip when `s` already has even
length and is lowercase). -/
theorem hex_c4_round_trip (s : List Char) (e : Endianness)
    (hall : ∀ c ∈ s, isHexDigitChar c = true) :
    renderRoundTrip s e =
      some (if s.length % 2 = 0 then s.map rustToLower
        else '0' :: s.map rustToLower) := by
  have hu : utf8Len s = s.length := utf8Len_ascii s hall
  set padded := if utf8Len s % 2 ≠ 0 then '0' :: s else s with hpadded
  have hallp : ∀ c ∈ padded, isHexDigitChar c = true := by
    intro c hcm
    rw [hpadded] at hcm
    by_cases h0 : utf8Len s % 2 ≠ 0
    · rw [if_pos h0] at hcm
      rcases List.mem_cons.mp hcm with h | h
      · subst h; decide
      · exact hall c h
    · rw [if_neg h0] at hcm
      exact hall c hcm
  have hevenp : padded.length % 2 = 0 := by
    rw [hpadded]
    by_cases h0 : utf8Len s % 2 ≠ 0
    · rw [if_pos h0]
      simp only [List.length_cons]
      omega
    · rw [if_neg h0]
      omega
  obtain ⟨hbs, hps, hj⟩ := parseHexBytes_ascii padded.length padded le_rfl hallp hevenp
  have hres : HexString.from_hex_str s e e = RustOutcome.ok ⟨hbs, e⟩ := by
    rw [from_hex_str_def, ← hpadded, hps]
    simp [HexString.from_hex_bytes]
  unfold renderRoundTrip
  rw [hres]
  show some (HexString.as_hex_string ⟨hbs, e⟩ e) =
    some (if s.length % 2 = 0 then s.map rustToLower else '0' :: s.map rustToLower)
  rw [as_hex_string_same, hj, hpadded, hu]
  by_cases h0 : s.length % 2 = 0
  · rw [if_neg (by omega), if_pos h0]
  · rw [if_pos (by omega), if_neg h0]
    simp only [List.map_cons]
    rfl

/-- Claim C4 witness: the amended round trip at the hex text `"0a"`. -/
theorem hex_c4_round_trip_witness :
    (∀ c ∈ (['0', 'a'] : List Char), isHexDigitChar c = true) ∧
      renderRoundTrip ['0', 'a'] Endianness.Big =
        some (if (['0', 'a'] : List Char).length % 2 = 0
          then (['0', 'a'] : List Char).map rustToLower
          else '0' :: (['0', 'a'] : List Char).map rustToLower) :=
  ⟨by decide, hex_c4_round_trip ['0', 'a'] Endianness.Big (by decide)⟩

/-! ## Claim C1 -/

lemma windowAt_eq_iff {l m : List HexByte} {i k : Nat} (hm : m.length = k)
    (hik : i + k ≤ l.length) :
    windowAt l i k = m ↔ ∀ j < k, l[i + j]? = m[j]? := by
  unfold windowAt
  constructor
  · intro hw j hj
    have h1 : (List.take k (List.drop i l))[j]? = m[j]? := by rw [hw]
    rwa [List.getElem?_take, if_pos hj, List.getElem?_drop] at h1
  · intro hp
    apply List.ext_getElem?
    intro j
    by_cases hj : j < k
    · rw [List.getElem?_take, if_pos hj, List.getElem?_drop, hp j hj]
    · rw [List.getElem?_take, if_neg hj,
        List.getElem?_eq_none (show m.length ≤ j by omega)]

/-- Claim C1: for a non-empty needle no longer than the haystack, the
search first re-tags the needle to the haystack's endianness (a no-op when
they already agree) and returns exactly the offsets `i` with
`i + len(needle) ≤ len(haystack)` at which every unit of the haystack
window equals the corresponding needle unit — unit equality being equality
of the two-character contents, as the second conjunct states — in strictly
ascending order with every overlapping match reported; in particular the
haystack hex text `"00112233440011223344"` with needle `"2233"`, both
little-endian, yields `[2, 7]`. -/
theorem hex_c1_search :
    (∀ h n : HexString, 0 < n.hex_bytes.length →
        n.hex_bytes.length ≤ h.hex_bytes.length →
        (∀ i : Nat, i ∈ h.get_offsets n ↔
            i + n.hex_bytes.length ≤ h.hex_bytes.length ∧
              ∀ j < n.hex_bytes.length,
                h.hex_bytes[i + j]? = (n.as_endianness h.endianness).hex_bytes[j]?) ∧
          (h.get_offsets n).Pairwise (fun a b => a < b)) ∧
      (∀ a b : HexByte, a = b ↔ a.contents = b.contents) ∧
      offsetsOfHexTexts exHayText exNeedleText = some [2, 7] := by
  refine ⟨?_, ?_, ?_⟩
  · intro h n hpos hle
    have hretag : (if n.endianness ≠ h.endianness
          then n.as_endianness h.endianness else n)
        = n.as_endianness h.endianness := by
      by_cases he : n.endianness = h.endianness
      · rw [if_neg (fun hne => hne he), ← he, HexString.as_endianness_self]
      · rw [if_pos he]
    have hguard : ¬(n.hex_bytes.length = 0 ∨
        h.hex_bytes.length < n.hex_bytes.length) := by omega
    have hlen' : (n.as_endianness h.endianness).hex_bytes.length = n.hex_bytes.length :=
      HexString.as_endianness_length n h.endianness
    have hexp : h.get_offsets n =
        (List.range (h.hex_bytes.length - n.hex_bytes.length + 1)).filter
          (fun i => windowAt h.hex_bytes i n.hex_bytes.length ==
            (n.as_endianness h.endianness).hex_bytes) := by
      simp only [HexString.get_offsets]
      rw [if_neg hguard, hretag, hlen']
    constructor
    · intro i
      rw [hexp, List.mem_filter, List.mem_range, beq_iff_eq]
      constructor
      · rintro ⟨hr, hw⟩
        have hik : i + n.hex_bytes.length ≤ h.hex_bytes.length := by omega
        exact ⟨hik, (windowAt_eq_iff hlen' hik).mp hw⟩
      · rintro ⟨hik, hpt⟩
        exact ⟨by omega, (windowAt_eq_iff hlen' hik).mpr hpt⟩
    · rw [hexp]
      exact (List.pairwise_lt_range _).sublist (List.filter_sublist _)
  · intro a b
    cases a with
    | mk ca =>
      cases b with
      | mk cb => simp
  · decide

/-- Claim C1 witness: the hypotheses hold and the search result is
strictly ascending for a concrete haystack and a concrete big-endian
needle. -/
theorem hex_c1_search_witness :
    0 < exNeedle.hex_bytes.length ∧
      exNeedle.hex_bytes.length ≤ exHay.hex_bytes.length ∧
      (exHay.get_offsets exNeedle).Pairwise (fun a b => a < b) :=
  ⟨by decide, by decide,
    (hex_c1_search.1 exHay exNeedle (by decide) (by decide)).2⟩

/-! ## Claim C3 -/

lemma hexVal_eq_foldl_valStep (s : List Char) : hexVal s = s.foldl valStep 0 := rfl

lemma foldl_checkedStep_none (digits : List Char) :
    digits.foldl checkedStep none = none := by
  induction digits with
  | nil => rfl
  | cons c rest ih => exact ih

lemma foldl_valStep_ge (digits : List Char) :
    ∀ acc : Nat, acc ≤ digits.foldl valStep acc := by
  induction digits with
  | nil => intro acc; exact le_rfl
  | cons c rest ih =>
    intro acc
    simp only [List.foldl_cons]
    refine le_trans ?_ (ih (valStep acc c))
    unfold valStep
    omega

lemma charToDigit16_lower (c : Char) (hc : isLowerHexDigit c = true) :
    charToDigit16 c = some ((charToDigit16 c).getD 0) := by
  simp only [isLowerHexDigit, Bool.or_eq_true, Bool.and_eq_true,
    decide_eq_true_eq] at hc
  unfold charToDigit16
  split_ifs with h1 h2 h3
  · simp
  · simp
  · simp
  · simp only [Bool.and_eq_true, decide_eq_true_eq] at h1 h2 h3
    rcases hc with h | h <;> omega

lemma foldl_checkedStep_eq :
    ∀ (digits : List Char), (∀ c ∈ digits, isLowerHexDigit c = true) →
      ∀ acc : Nat, acc < usizeBound →
        digits.foldl checkedStep (some acc) =
          if digits.foldl valStep acc < usizeBound
            then some (digits.foldl valStep acc) else none := by
  intro digits
  induction digits with
  | nil =>
    intro _ acc hacc
    simp only [List.foldl_nil]
    rw [if_pos hacc]
  | cons c rest ih =>
    intro hd acc hacc
    have hcd := charToDigit16_lower c (hd c (by simp))
    have hrest : ∀ x ∈ rest, isLowerHexDigit x = true := fun x hx => hd x (by simp [hx])
    simp only [List.foldl_cons]
    have hstepeq : checkedStep (some acc) c =
        if valStep acc c < usizeBound then some (valStep acc c) else none := by
      unfold checkedStep valStep
      rw [hcd]
      rfl
    rw [hstepeq]
    by_cases hstep : valStep acc c < usizeBound
    · rw [if_pos hstep]
      exact ih hrest (valStep acc c) hstep
    · rw [if_neg hstep, foldl_checkedStep_none]
      have hge := foldl_valStep_ge rest (valStep acc c)
      rw [if_neg (by omega)]

lemma flatten_contents_facts :
    ∀ (l : List HexByte), (∀ b ∈ l, b.WF) →
      (∀ c ∈ (l.map HexByte.contents).flatten, isLowerHexDigit c = true) ∧
        ((l.map HexByte.contents).flatten).length = 2 * l.length := by
  intro l
  induction l with
  | nil => intro _; exact ⟨by simp, by simp⟩
  | cons b rest ih =>
    intro hwf
    obtain ⟨hlen2, hchars⟩ := hwf b (by simp)
    obtain ⟨ih1, ih2⟩ := ih (fun x hx => hwf x (by simp [hx]))
    constructor
    · intro c hc
      simp only [List.map_cons, List.flatten_cons, List.mem_append] at hc
      rcases hc with h | h
      · exact hchars c h
      · exact ih1 c h
    · simp only [List.map_cons, List.flatten_cons, List.length_append,
        List.length_cons, ih2, hlen2]
      omega

lemma as_hex_string_big_facts (h : HexString) (hwf : h.WF) :
    (∀ c ∈ h.as_hex_string Endianness.Big, isLowerHexDigit c = true) ∧
      (h.as_hex_string Endianness.Big).length = 2 * h.hex_bytes.length := by
  have hmain : ∃ bs : List HexByte, (∀ b ∈ bs, HexByte.WF b) ∧ bs.length = h.hex_bytes.length ∧
      h.as_hex_string Endianness.Big = (bs.map HexByte.contents).flatten := by
    simp only [HexString.as_hex_string, HexString.as_endianness]
    split_ifs with h1 h2
    · exact ⟨h.hex_bytes, hwf, rfl, rfl⟩
    · refine ⟨h.hex_bytes.reverse, ?_, by simp, rfl⟩
      intro b hb
      exact hwf b (List.mem_reverse.mp hb)
    · exact ⟨h.hex_bytes, hwf, rfl, rfl⟩
  obtain ⟨bs, hbswf, hbslen, hbseq⟩ := hmain
  obtain ⟨hf1, hf2⟩ := flatten_contents_facts bs hbswf
  rw [hbseq]
  exact ⟨hf1, by rw [hf2, hbslen]⟩

/-- Claim C3: for every well-formed sequence, rendering as a bounded
integer yields `Some` of the big-endian numeric value exactly when the
sequence is non-empty and that value fits the native 64-bit width, and
`None` — a normal outcome, not an error — otherwise (empty rendering or
overflow); in particular big-endian `"00112233"` renders to
`Some 1122867` and 17 hex digits `f` render to `None`. -/
theorem hex_c3_as_usize :
    (∀ h : HexString, h.WF →
        h.as_usize =
          if 0 < h.hex_bytes.length ∧
              hexVal (h.as_hex_string Endianness.Big) < usizeBound
            then some (hexVal (h.as_hex_string Endianness.Big)) else none) ∧
      asUsizeOfHexText ['0', '0', '1', '1', '2', '2', '3', '3'] = some (some 1122867) ∧
      asUsizeOfHexText (List.replicate 17 'f') = some none := by
  refine ⟨?_, by decide, by decide⟩
  intro h hwf
  obtain ⟨hall, hlen⟩ := as_hex_string_big_facts h hwf
  unfold HexString.as_usize
  cases hrc : h.as_hex_string Endianness.Big with
  | nil =>
    rw [hrc] at hlen
    simp only [List.length_nil] at hlen
    rw [if_neg (by omega)]
    rfl
  | cons c rest =>
    rw [hrc] at hall hlen
    simp only [List.length_cons] at hlen
    have hlenpos : 0 < h.hex_bytes.length := by omega
    have hc : isLowerHexDigit c = true := hall c (by simp)
    have hcm1 : ¬(c = '-') := by
      intro hEq
      rw [hEq] at hc
      exact absurd hc (by decide)
    have hcm2 : ¬(c = '+') := by
      intro hEq
      rw [hEq] at hc
      exact absurd hc (by decide)
    have hdig : (if c = '-' ∨ c = '+' then rest else c :: rest) = c :: rest :=
      if_neg (fun hor => Or.elim hor hcm1 hcm2)
    show fromStrRadix16 (c :: rest) = _
    simp only [fromStrRadix16, hdig]
    rw [if_neg (show ¬((c :: rest).isEmpty = true) by simp), if_neg hcm1]
    show (c :: rest).foldl checkedStep (some 0) = _
    rw [foldl_checkedStep_eq (c :: rest) hall 0 (by norm_num [usizeBound])]
    rw [hexVal_eq_foldl_valStep]
    by_cases hv : (c :: rest).foldl valStep 0 < usizeBound
    · rw [if_pos hv, if_pos ⟨hlenpos, hv⟩]
    · rw [if_neg hv, if_neg (fun hand => hv hand.2)]

/-- Claim C3 witness: the characterization applied to a concrete
well-formed sequence. -/
theorem hex_c3_as_usize_witness :
    exUsize.WF ∧
      exUsize.as_usize =
        (if 0 < exUsize.hex_bytes.length ∧
            hexVal (exUsize.as_hex_string Endianness.Big) < usizeBound
          then some (hexVal (exUsize.as_hex_string Endianness.Big)) else none) :=
  ⟨by decide, hex_c3_as_usize.1 exUsize (by decide)⟩
